import Mathlib

/-!
Verification of the DWG-AutoFill field-mapping and template-substitution engine.

Shallow embedding of `src/mapper.py` (name normalization, fuzzy column-to-tag
matching) and `src/filler.py` (attribute substitution, bounding-box heuristic,
batch driver).  Python dicts are embedded as association lists with
replace-in-place insertion, Python floats as rationals, fallible IO calls as
`Except`-valued functions.
-/

set_option autoImplicit false

section RatReducible

/- Core marks the rational-number kernel operations irreducible, which keeps
`decide` from evaluating concrete fuzzy-match scores; restore the default
reducibility for this development. -/
attribute [local semireducible] Rat.add Rat.mul Rat.inv Rat.sub

namespace Mapper

/-- Python dict with string keys and values, insertion ordered. -/
abbrev Dict := List (String × String)

/-- Python `d[k]` / `k in d`: first (unique) entry with the key. -/
def dictLookup : Dict → String → Option String
  | [], _ => none
  | p :: ps, k => if p.1 = k then some p.2 else dictLookup ps k

/-- Python `d[k] = v`: overwrite in place if the key exists, else append. -/
def dictInsert : Dict → String → String → Dict
  | [], k, v => [(k, v)]
  | p :: ps, k, v => if p.1 = k then (k, v) :: ps else p :: dictInsert ps k v

/-- Python `pat in s` on character lists (substring containment). -/
def pyIn (pat : List Char) : List Char → Bool
  | [] => pat.isEmpty
  | c :: cs => pat.isPrefixOf (c :: cs) || pyIn pat cs

/-- Worker for `replaceL`: `skip` counts characters of an already matched
occurrence still to be consumed without being emitted. -/
def replaceGo (pat rep : List Char) : List Char → Nat → List Char
  | [], _ => []
  | _ :: cs, skip + 1 => replaceGo pat rep cs skip
  | c :: cs, 0 =>
    if pat ≠ [] && pat.isPrefixOf (c :: cs) then
      rep ++ replaceGo pat rep cs (pat.length - 1)
    else
      c :: replaceGo pat rep cs 0

/-- Python `s.replace(pat, rep)`: leftmost non-overlapping occurrences.
(The `pat ≠ []` guard is never exercised by the synonym table, whose keys
are all non-empty.) -/
def replaceL (pat rep l : List Char) : List Char :=
  replaceGo pat rep l 0

/-- Python `s.replace(pat, rep)` on strings. -/
def pyReplace (s pat rep : String) : String :=
  String.mk (replaceL pat.toList rep.toList s.toList)

/-- ASCII whitespace stripped by Python `str.strip()`. -/
def isSpaceChar (c : Char) : Bool :=
  c = ' ' || c = '\t' || c = '\n' || c = '\r' || c = '\x0b' || c = '\x0c'

/-- Python `s.strip()`: remove leading and trailing whitespace. -/
def pyStrip (s : String) : String :=
  String.mk (((s.toList.dropWhile isSpaceChar).reverse.dropWhile isSpaceChar).reverse)

/-- `Mapper.SYNONYMS` from `src/mapper.py` (insertion order of the dict). -/
def SYNONYMS : List (String × String) :=
  [("desc", "description"), ("addr", "address"), ("power", "kw"),
   ("project", "projectname"), ("num", "number"), ("no", "number")]

/-- `[a-z0-9]`: characters kept by `re.sub(r'[^a-z0-9]', '', name)`. -/
def isAlnumLower (c : Char) : Bool :=
  ('a' ≤ c && c ≤ 'z') || ('0' ≤ c && c ≤ '9')

/-- One synonym substitution: `if k in name: name = name.replace(k, v)`. -/
def applySyn (acc : List Char) (kv : String × String) : List Char :=
  if pyIn kv.1.toList acc then replaceL kv.1.toList kv.2.toList acc else acc

/-- `Mapper._normalize` on character lists: lower-case, strip everything
outside `[a-z0-9]`, then apply each synonym substitution in table order. -/
def normalizeL (name : List Char) : List Char :=
  SYNONYMS.foldl applySyn ((name.map Char.toLower).filter isAlnumLower)

/-- `Mapper._normalize` from `src/mapper.py`. -/
def normalize (name : String) : String :=
  String.mk (normalizeL name.toList)

/-- One row of the LCS dynamic-programming table: given the previous row
`p0 :: prest` and the already computed entry `left` to the current cell's
left, produce the tail of the new row. -/
def lcsNewRow (a : Char) : List Char → List Nat → Nat → List Nat
  | [], _, _ => []
  | _ :: _, [], _ => []
  | b :: bs, p0 :: prest, left =>
    let cur := if a = b then p0 + 1 else max left (prest.headD 0)
    cur :: lcsNewRow a bs prest cur

/-- Length of a longest common subsequence (row-by-row DP). -/
def lcsLen (as bs : List Char) : Nat :=
  (as.foldl (fun row a => 0 :: lcsNewRow a bs row 0)
    (List.replicate (bs.length + 1) 0)).getLastD 0

/-- InDel (insertion/deletion) edit distance, as used by `rapidfuzz.fuzz.ratio`. -/
def indelDist (s1 s2 : String) : Nat :=
  s1.length + s2.length - 2 * lcsLen s1.toList s2.toList

/-- `rapidfuzz.fuzz.ratio`: normalized InDel similarity scaled to 0–100. -/
def fuzzRatio (s1 s2 : String) : ℚ :=
  if s1.length + s2.length = 0 then 100
  else 100 * ((s1.length + s2.length - indelDist s1 s2 : ℕ) : ℚ) / (s1.length + s2.length)

/-- Scanning loop of `rapidfuzz.process.extractOne`: keeps the first choice
attaining the maximum score (later choices replace only on a strictly
greater score). -/
def extractOneGo (q best : String) (bestScore : ℚ) : List String → String × ℚ
  | [] => (best, bestScore)
  | c :: cs =>
    if bestScore < fuzzRatio q c then extractOneGo q c (fuzzRatio q c) cs
    else extractOneGo q best bestScore cs

/-- `rapidfuzz.process.extractOne(q, choices, scorer=fuzz.ratio)`:
`none` exactly when there are no choices. -/
def extractOne (q : String) : List String → Option (String × ℚ)
  | [] => none
  | c :: cs => some (extractOneGo q c (fuzzRatio q c) cs)

/-- `normalized_attrs = {self._normalize(attr): attr for attr in dxf_attributes}`:
key position is fixed by the first occurrence, the value by the last. -/
def normalizedAttrs (dxf_attributes : List String) : Dict :=
  dxf_attributes.foldl (fun d attr => dictInsert d (normalize attr) attr) []

/-- Per-column body of the `auto_map` loop (`src/mapper.py` lines 52–71):
exact match on the normalized name first, otherwise the best fuzzy match
provided it reaches the threshold.  (`extractOne` already returns `none` for
an empty choice list, which embeds the `if normalized_attr_list:` guard; the
inner lookup of `match_norm` cannot miss because `extractOne` picks its
result from the dict's keys.) -/
def colBinding (fuzzy_threshold : ℚ) (normalized_attrs : Dict) (col : String) : Option String :=
  let normalized_col := normalize col
  match dictLookup normalized_attrs normalized_col with
  | some attr => some attr
  | none =>
    match extractOne normalized_col (normalized_attrs.map Prod.fst) with
    | some (match_norm, score) =>
      if fuzzy_threshold ≤ score then dictLookup normalized_attrs match_norm else none
    | none => none

/-- One iteration of the `for col in df_columns` loop: record the binding
(if any) the per-column body produced. -/
def autoMapStep (fuzzy_threshold : ℚ) (normalized_attrs : Dict) (mapping : Dict)
    (col : String) : Dict :=
  match colBinding fuzzy_threshold normalized_attrs col with
  | some attr => dictInsert mapping col attr
  | none => mapping

/-- `Mapper.auto_map` from `src/mapper.py` (`fuzzy_threshold` defaults to 70
in `Mapper.__init__`). -/
def auto_map (fuzzy_threshold : ℚ) (df_columns dxf_attributes : List String) : Dict :=
  df_columns.foldl (autoMapStep fuzzy_threshold (normalizedAttrs dxf_attributes)) []

end Mapper

namespace Filler

/-- A Python value stored in a row dict: a string, `None`, or a pandas `NaN`. -/
inductive PyValue where
  | pstr (s : String)
  | pnone
  | pnan
deriving DecidableEq, Repr

/-- `pd.isna(value)` (together with `value is None` this is what
`fill_document` treats as "no data"): true on `None` and `NaN`. -/
def isNA : PyValue → Bool
  | .pstr _ => false
  | .pnone => true
  | .pnan => true

/-- Python `str(value)`. -/
def pyStr : PyValue → String
  | .pstr s => s
  | .pnone => "None"
  | .pnan => "nan"

/-- One data row: a dict from column name to value (a key can be absent). -/
abbrev Row := List (String × PyValue)

/-- Python `row.get(col)`: `none` when the key is absent. -/
def pyGet : Row → String → Option PyValue
  | [], _ => none
  | p :: ps, k => if p.1 = k then some p.2 else pyGet ps k

/-- A block attribute (`ezdxf` ATTRIB entity): the mutable `text` plus the
geometry fields read by the bounding-box heuristic. -/
structure Attrib where
  tag : String
  text : String
  handle : String
  insert : ℚ × ℚ
  height : ℚ
  halign : Int
  valign : Int
deriving DecidableEq, Repr

/-- A block reference (INSERT entity) in the modelspace with its attributes. -/
structure Insert where
  name : String
  attribs : List Attrib
deriving DecidableEq, Repr

/-- The record appended to `changed_entities` for every substitution. -/
structure ChangedEntity where
  handle : String
  bbox : ℚ × ℚ × ℚ × ℚ
  attribute_tag : String
  new_value : String
  block_name : String
deriving DecidableEq, Repr

/-- `Filler._compute_attrib_bbox` from `src/filler.py` lines 19–64
(the `insert` argument is unused by the source apart from a TODO note). -/
def compute_attrib_bbox (attrib : Attrib) : ℚ × ℚ × ℚ × ℚ :=
  let insert_point := attrib.insert
  let text_height := attrib.height
  let text_width := text_height * 5
  let halign := attrib.halign
  let (xmin, xmax) :=
    if halign = 0 then (insert_point.1, insert_point.1 + text_width)
    else if halign = 1 then (insert_point.1 - text_width / 2, insert_point.1 + text_width / 2)
    else if halign = 2 then (insert_point.1 - text_width, insert_point.1)
    else (insert_point.1, insert_point.1 + text_width)
  let valign := attrib.valign
  let (ymin, ymax) :=
    if valign = 0 ∨ valign = 1 then (insert_point.2, insert_point.2 + text_height)
    else if valign = 2 then (insert_point.2 - text_height / 2, insert_point.2 + text_height / 2)
    else if valign = 3 then (insert_point.2 - text_height, insert_point.2)
    else (insert_point.2, insert_point.2 + text_height)
  (xmin, ymin, xmax, ymax)

/-- `insert.get_attrib(tag)` (ezdxf returns the first attribute with the tag). -/
def findAttrib (tag : String) : List Attrib → Option Attrib
  | [] => none
  | a :: as => if a.tag = tag then some a else findAttrib tag as

/-- `attrib.dxf.text = new_text` on the attribute found by `get_attrib`:
rewrite the text of the first attribute carrying the tag. -/
def setAttribTextL (tag new_text : String) : List Attrib → List Attrib
  | [] => []
  | a :: as =>
    if a.tag = tag then { a with text := new_text } :: as
    else a :: setAttribTextL tag new_text as

/-- Body of the inner loop of `Filler.fill_document` (`src/filler.py` lines
76–107) for one `(col_name, attrib_tag)` mapping pair on one INSERT:
skip when the row has no usable value or the block has no such attribute;
skip silently when the trimmed text is unchanged; otherwise rewrite the
text and emit one `ChangedEntity`. -/
def fillPair1 (row : Row) (p : String × String) (ins : Insert) :
    Insert × List ChangedEntity :=
  let col_name := p.1
  let attrib_tag := p.2
  match pyGet row col_name with
  | none => (ins, [])
  | some value =>
    if isNA value then (ins, [])
    else
      match findAttrib attrib_tag ins.attribs with
      | none => (ins, [])
      | some attrib =>
        let new_text := pyStr value
        if Mapper.pyStrip attrib.text ≠ Mapper.pyStrip new_text then
          let attrib' := { attrib with text := new_text }
          ({ ins with attribs := setAttribTextL attrib_tag new_text ins.attribs },
           [{ handle := attrib'.handle, bbox := compute_attrib_bbox attrib',
              attribute_tag := attrib_tag, new_value := new_text,
              block_name := ins.name }])
        else (ins, [])

/-- The `for col_name, attrib_tag in mapping.items()` loop of
`fill_document` over one INSERT, collecting the changed-entity records in
loop order. -/
def fillPairs (row : Row) : List (String × String) → Insert → Insert × List ChangedEntity
  | [], ins => (ins, [])
  | p :: ps, ins =>
    let step := fillPair1 row p ins
    let rest := fillPairs row ps step.1
    (rest.1, step.2 ++ rest.2)

/-- `Filler.fill_document` from `src/filler.py` lines 66–109: the modelspace
is embedded as its list of INSERT entities, mutated in place by the Python
code and rebuilt functionally here. -/
def fill_document (doc : List Insert) (mapping : List (String × String)) (row : Row) :
    List Insert × List ChangedEntity :=
  match doc with
  | [] => ([], [])
  | ins :: rest =>
    let step := fillPairs row mapping ins
    let tail := fill_document rest mapping row
    (step.1 :: tail.1, step.2 ++ tail.2)

namespace Batch

/-- The `io_manager` collaborator consumed by `batch_fill`: loading and
saving are fallible (any raised exception is embedded as `Except.error`);
`ensure_directory` has no observable effect in the model. -/
structure IOManager where
  load_dwg : String → Except String (List Insert)
  save_dwg : List Insert → String → Except String Unit

/-- One entry of `report['results']` in `Filler.batch_fill`. -/
structure RowResult where
  row_index : Nat
  status : String
  output_path : Option String
  error : Option String
  changed_count : Nat
deriving DecidableEq, Repr

/-- The report dict returned by `Filler.batch_fill`. -/
structure BatchReport where
  total_rows : Nat
  success_count : Nat
  failed_count : Nat
  results : List RowResult
deriving DecidableEq, Repr

/-- The exception raised by the logging calls of the `batch_fill` loop.
`src/logger.py` line 51 exports `logger = AppLogger().logger` — the *raw
stdlib* `logging.Logger`, not the `AppLogger` wrapper whose methods accept
a `context` keyword (logger.py lines 35–42).  The logger level is INFO, so
a call passing `context=` reaches `Logger._log`, which rejects the unknown
keyword with a `TypeError`. -/
def typeErrorContext : String :=
  "TypeError: _log() got an unexpected keyword argument context"

/-- A `logger.info(..., context={...})` / `logger.error(..., context={...})`
call on the exported stdlib logger: always raises `TypeError`.  (Calls
passing no `context=` only write to the log, with no effect observable in
this model.) -/
def loggerContextCall : Except String Unit :=
  Except.error typeErrorContext

/-- The `try` body of the `batch_fill` loop (`src/filler.py` lines 138–152)
for the row with 1-based ordinal `row_id`: its *first* statement is the
`logger.info(..., context={'row_id': row_id})` call of line 139, which
raises `TypeError` on the exported stdlib logger, so the load/fill/save
steps after it are unreachable. -/
def processRowTry (io : IOManager) (dwg_path out_dir : String)
    (mapping : List (String × String)) (row_id : Nat) (row : Row) :
    Except String (String × Nat) := do
  loggerContextCall
  let doc ← io.load_dwg dwg_path
  let filled := fill_document doc mapping row
  let project_name :=
    Mapper.pyReplace (pyStr ((pyGet row "PROJECT_NAME").getD (.pstr "Project"))) " " "_"
  let out_path := out_dir ++ "/" ++ project_name ++ "_" ++ toString row_id ++ ".dwg"
  io.save_dwg filled.1 out_path
  pure (out_path, filled.2.length)

/-- The complete per-row body of `batch_fill` (`src/filler.py` lines
129–167) at 0-based position `index`: `try` body, `except Exception`
handler, and the appended row-result.  The handler itself opens with the
`logger.error(..., context={'row_id': row_id})` call of line 155, which
raises the same `TypeError`; that new exception escapes the handler, so the
FAILED row-result below it is dead code. -/
def processRow (io : IOManager) (dwg_path out_dir : String)
    (mapping : List (String × String)) (index : Nat) (row : Row) :
    Except String RowResult :=
  let row_id := index + 1
  match processRowTry io dwg_path out_dir mapping row_id row with
  | .ok (out_path, changed_count) =>
    .ok { row_index := row_id, status := "SUCCESS", output_path := some out_path,
          error := none, changed_count := changed_count }
  | .error e =>
    match loggerContextCall with
    | .error e2 => .error e2
    | .ok _ =>
      .ok { row_index := row_id, status := "FAILED", output_path := none,
            error := some e, changed_count := 0 }

/-- The `for index, row_series in dataframe.iterrows()` loop of `batch_fill`
(the dataframe carries the default range index, so `index` is the 0-based
row position); an exception escaping a row's `except` handler aborts the
whole loop. -/
def batchResults (io : IOManager) (dwg_path out_dir : String)
    (mapping : List (String × String)) : Nat → List Row → Except String (List RowResult)
  | _, [] => .ok []
  | index, row :: rows => do
    let r ← processRow io dwg_path out_dir mapping index row
    let rs ← batchResults io dwg_path out_dir mapping (index + 1) rows
    pure (r :: rs)

/-- `Filler.batch_fill` from `src/filler.py` lines 111–170, logging calls
included.  The opening and closing `logger.info` calls (lines 124 and 169)
pass no `context=` and cannot raise; `ensure_directory` has no observable
effect.  The source increments `success_count`/`failed_count` inside the
loop; since every completed iteration appends exactly one result whose
status names the incremented counter, the counts equal the corresponding
filtered lengths. -/
def batch_fill (io : IOManager) (dwg_path : String) (dataframe : List Row)
    (mapping : List (String × String)) (out_dir : String) : Except String BatchReport :=
  match batchResults io dwg_path out_dir mapping 0 dataframe with
  | .error e => .error e
  | .ok results =>
    .ok { total_rows := dataframe.length
          success_count := (results.filter (fun r => r.status = "SUCCESS")).length
          failed_count := (results.filter (fun r => r.status = "FAILED")).length
          results := results }

/-- The per-row body as §4.4 of the spec intends, and as the code would
behave had `src/logger.py` line 51 exported the `AppLogger` wrapper (whose
`info`/`error` accept `context=`, lines 35–42) instead of the raw stdlib
logger: the two `context=`-passing log calls do not raise, so only the
load/fill/save steps can fail, and any failure yields a FAILED result with
no output path. -/
def processRowFixed (io : IOManager) (dwg_path out_dir : String)
    (mapping : List (String × String)) (index : Nat) (row : Row) : RowResult :=
  let row_id := index + 1
  match io.load_dwg dwg_path with
  | .error e =>
    { row_index := row_id, status := "FAILED", output_path := none,
      error := some e, changed_count := 0 }
  | .ok doc =>
    let filled := fill_document doc mapping row
    let project_name :=
      Mapper.pyReplace (pyStr ((pyGet row "PROJECT_NAME").getD (.pstr "Project"))) " " "_"
    let out_path := out_dir ++ "/" ++ project_name ++ "_" ++ toString row_id ++ ".dwg"
    match io.save_dwg filled.1 out_path with
    | .error e =>
      { row_index := row_id, status := "FAILED", output_path := none,
        error := some e, changed_count := filled.2.length }
    | .ok _ =>
      { row_index := row_id, status := "SUCCESS", output_path := some out_path,
        error := none, changed_count := filled.2.length }

/-- The row loop over `processRowFixed` (logging slip repaired). -/
def batchResultsFixed (io : IOManager) (dwg_path out_dir : String)
    (mapping : List (String × String)) : Nat → List Row → List RowResult
  | _, [] => []
  | index, row :: rows =>
    processRowFixed io dwg_path out_dir mapping index row ::
      batchResultsFixed io dwg_path out_dir mapping (index + 1) rows

/-- `batch_fill` with the logging slip repaired: always returns a report. -/
def batch_fillFixed (io : IOManager) (dwg_path : String) (dataframe : List Row)
    (mapping : List (String × String)) (out_dir : String) : BatchReport :=
  let results := batchResultsFixed io dwg_path out_dir mapping 0 dataframe
  { total_rows := dataframe.length
    success_count := (results.filter (fun r => r.status = "SUCCESS")).length
    failed_count := (results.filter (fun r => r.status = "FAILED")).length
    results := results }

end Batch

/-- The bounding-box formula as the specification states it (§4.3): width
`w = 5 × h`; horizontal extent `[x, x+w]` for left, `[x−w/2, x+w/2]` for
center, `[x−w, x]` for right, left behavior for any other code; vertical
extent `[y, y+h]` for baseline/bottom, `[y−h/2, y+h/2]` for middle,
`[y−h, y]` for top, baseline behavior for any other code.  Alignment names
map to the DXF codes used by the source: halign 0/1/2 = left/center/right,
valign 0/1/2/3 = baseline/bottom/middle/top. -/
def specBBox (x y h : ℚ) (halign valign : Int) : ℚ × ℚ × ℚ × ℚ :=
  let w := 5 * h
  let hx : ℚ × ℚ :=
    if halign = 0 then (x, x + w)
    else if halign = 1 then (x - w / 2, x + w / 2)
    else if halign = 2 then (x - w, x)
    else (x, x + w)
  let vy : ℚ × ℚ :=
    if valign = 0 ∨ valign = 1 then (y, y + h)
    else if valign = 2 then (y - h / 2, y + h / 2)
    else if valign = 3 then (y - h, y)
    else (y, y + h)
  (hx.1, vy.1, hx.2, vy.2)

end Filler

/-- Claim C1:  For every template field the bounding box computed during
substitution equals the spec's formula (width `5·h`, alignment-dependent
extents, left/baseline defaults); in particular `height=2.5`,
`halign=right(2)`, `valign=top(3)` at `(100,50)` yields
`(87.5, 47.5, 100, 50)`, and a field with unrecognized alignment codes
produces the same box as explicit left/baseline. -/
theorem compute_attrib_bbox_matches_spec :
    (∀ a : Filler.Attrib,
      Filler.compute_attrib_bbox a =
        Filler.specBBox a.insert.1 a.insert.2 a.height a.halign a.valign) ∧
    Filler.compute_attrib_bbox
        { tag := "T", text := "", handle := "H", insert := (100, 50),
          height := 2.5, halign := 2, valign := 3 } = (87.5, 47.5, 100, 50) ∧
    (∀ a : Filler.Attrib, ¬(a.halign = 0 ∨ a.halign = 1 ∨ a.halign = 2) →
      ¬(a.valign = 0 ∨ a.valign = 1 ∨ a.valign = 2 ∨ a.valign = 3) →
      Filler.compute_attrib_bbox a =
        Filler.compute_attrib_bbox { a with halign := 0, valign := 0 }) := by
  refine ⟨fun a => ?_, by norm_num [Filler.compute_attrib_bbox], fun a h1 h2 => ?_⟩
  · simp only [Filler.compute_attrib_bbox, Filler.specBBox]
    split_ifs <;> simp [mul_comm]
  · simp only [Filler.compute_attrib_bbox]
    split_ifs <;> tauto

/-- Witness for `compute_attrib_bbox_matches_spec`: alignment codes 7/9 are
unrecognized and give the left/baseline box. -/
theorem compute_attrib_bbox_matches_spec_witness :
    Filler.compute_attrib_bbox
        { tag := "T", text := "", handle := "H", insert := (1, 2),
          height := 3, halign := 7, valign := 9 } =
      Filler.compute_attrib_bbox
        { tag := "T", text := "", handle := "H", insert := (1, 2),
          height := 3, halign := 0, valign := 0 } :=
  compute_attrib_bbox_matches_spec.2.2
    { tag := "T", text := "", handle := "H", insert := (1, 2),
      height := 3, halign := 7, valign := 9 } (by decide) (by decide)

/-- Claim C8:  A mapping pair whose column is absent from the row, or whose
value is Python `None` or pandas `NaN`, is skipped: the INSERT (hence every
field text) is unchanged and no `ChangedEntity` is emitted. -/
theorem fillPair1_skips_missing_value (row : Filler.Row) (p : String × String)
    (ins : Filler.Insert)
    (h : Filler.pyGet row p.1 = none ∨ Filler.pyGet row p.1 = some .pnone ∨
      Filler.pyGet row p.1 = some .pnan) :
    Filler.fillPair1 row p ins = (ins, []) := by
  rcases h with h | h | h <;> simp [Filler.fillPair1, h, Filler.isNA]

namespace Mapper

theorem dictLookup_insert_self (d : Dict) (k v : String) :
    dictLookup (dictInsert d k v) k = some v := by
  induction d with
  | nil => simp [dictInsert, dictLookup]
  | cons p ps ih =>
    by_cases h : p.1 = k
    · simp [dictInsert, h, dictLookup]
    · simp [dictInsert, h, dictLookup, ih]

theorem dictLookup_insert_ne (d : Dict) (k v k' : String) (h : k' ≠ k) :
    dictLookup (dictInsert d k v) k' = dictLookup d k' := by
  have h' : k ≠ k' := Ne.symm h
  induction d with
  | nil => simp [dictInsert, dictLookup, h']
  | cons p ps ih =>
    by_cases hp : p.1 = k
    · subst hp
      simp [dictInsert, dictLookup, h']
    · simp only [dictInsert, if_neg hp, dictLookup]
      by_cases hc : p.1 = k'
      · simp [hc]
      · simp [hc, ih]

theorem dictLookup_of_mem_keys (d : Dict) (k : String) (h : k ∈ d.map Prod.fst) :
    ∃ v, dictLookup d k = some v := by
  induction d with
  | nil => cases h
  | cons p ps ih =>
    by_cases hp : p.1 = k
    · exact ⟨p.2, by simp [dictLookup, hp]⟩
    · have : k ∈ ps.map Prod.fst := by
        rcases List.mem_map.mp h with ⟨q, hq, hk⟩
        rcases List.mem_cons.mp hq with rfl | hq'
        · exact absurd hk hp
        · exact List.mem_map.mpr ⟨q, hq', hk⟩
      rcases ih this with ⟨v, hv⟩
      exact ⟨v, by simp [dictLookup, hp, hv]⟩

/-- Every value stored in `normalized_attrs` is the *last* attribute of the
input sequence whose normalized form is the key. -/
theorem normalizedAttrs_lookup_lastWins (attrs : List String) (n t : String)
    (h : dictLookup (normalizedAttrs attrs) n = some t) :
    normalize t = n ∧ (attrs.filter (fun a => normalize a = n)).getLast? = some t := by
  induction attrs using List.reverseRecOn with
  | nil => simp [normalizedAttrs, dictLookup] at h
  | append_singleton as a ih =>
    rw [normalizedAttrs, List.foldl_append, List.foldl_cons, List.foldl_nil] at h
    by_cases hn : normalize a = n
    · rw [← hn, dictLookup_insert_self] at h
      cases h
      refine ⟨hn, ?_⟩
      rw [List.filter_append]
      simp [hn]
    · rw [dictLookup_insert_ne _ _ _ _ (fun he => hn he.symm)] at h
      rcases ih h with ⟨h1, h2⟩
      refine ⟨h1, ?_⟩
      rw [List.filter_append]
      simp only [List.filter_cons, List.filter_nil]
      rw [if_neg (by simpa using hn)]
      simpa using h2

theorem extractOneGo_mem (q : String) (cs : List String) :
    ∀ (best : String) (bs : ℚ),
      (extractOneGo q best bs cs).1 = best ∨ (extractOneGo q best bs cs).1 ∈ cs := by
  induction cs with
  | nil => intro best bs; left; rfl
  | cons c cs ih =>
    intro best bs
    rw [extractOneGo]
    split
    · rcases ih c (fuzzRatio q c) with h | h
      · exact Or.inr (by rw [h]; exact List.mem_cons_self c cs)
      · exact Or.inr (List.mem_cons_of_mem c h)
    · rcases ih best bs with h | h
      · exact Or.inl h
      · exact Or.inr (List.mem_cons_of_mem c h)

theorem extractOne_mem (q : String) (l : List String) (m : String) (s : ℚ)
    (h : extractOne q l = some (m, s)) : m ∈ l := by
  cases l with
  | nil => cases h
  | cons c cs =>
    rw [extractOne] at h
    have h2 : extractOneGo q c (fuzzRatio q c) cs = (m, s) := by injection h
    rcases extractOneGo_mem q cs c (fuzzRatio q c) with hm | hm <;> rw [h2] at hm
    · have : m = c := hm
      rw [this]
      exact List.mem_cons_self _ _
    · exact List.mem_cons_of_mem c hm

theorem autoMapStep_lookup_ne (th : ℚ) (na m : Dict) (col c : String) (h : c ≠ col) :
    dictLookup (autoMapStep th na m col) c = dictLookup m c := by
  rw [autoMapStep]
  cases colBinding th na col with
  | none => rfl
  | some t => exact dictLookup_insert_ne m col t c h

theorem autoMapFold_lookup_notmem (th : ℚ) (na : Dict) (cols : List String) (m : Dict)
    (c : String) (h : c ∉ cols) :
    dictLookup (cols.foldl (autoMapStep th na) m) c = dictLookup m c := by
  induction cols generalizing m with
  | nil => rfl
  | cons a as ih =>
    have hca : c ≠ a := fun he => h (by rw [he]; exact List.mem_cons_self a as)
    rw [List.foldl_cons, ih _ (fun hc => h (List.mem_cons_of_mem a hc)),
      autoMapStep_lookup_ne _ _ _ _ _ hca]

theorem autoMapFold_lookup_mem (th : ℚ) (na : Dict) (cols : List String) (m : Dict)
    (c : String) (h : c ∈ cols) :
    dictLookup (cols.foldl (autoMapStep th na) m) c =
      match colBinding th na c with
      | some t => some t
      | none => dictLookup m c := by
  induction cols generalizing m with
  | nil => cases h
  | cons a as ih =>
    by_cases hc : c ∈ as
    · rw [List.foldl_cons, ih _ hc]
      cases hb : colBinding th na c with
      | some t => rfl
      | none =>
        by_cases hac : a = c
        · subst hac
          rw [autoMapStep, hb]
        · exact autoMapStep_lookup_ne _ _ _ _ _ (fun he => hac he.symm)
    · have hac : a = c := ((List.mem_cons.mp h).resolve_right hc).symm
      subst hac
      rw [List.foldl_cons, autoMapFold_lookup_notmem _ _ _ _ _ hc, autoMapStep]
      cases hb : colBinding th na a with
      | some t => exact dictLookup_insert_self m a t
      | none => rfl

/-- The binding `auto_map` produces for a column it was given is exactly the
per-column body's result. -/
theorem auto_map_lookup (th : ℚ) (cols attrs : List String) (col : String)
    (h : col ∈ cols) :
    dictLookup (auto_map th cols attrs) col =
      colBinding th (normalizedAttrs attrs) col := by
  rw [auto_map, autoMapFold_lookup_mem th _ cols [] col h]
  cases hb : colBinding th (normalizedAttrs attrs) col <;> rfl

end Mapper

/-- Claim C6:  Exact-match precedence: a column whose normalized form is a key
of the normalized-tag dict is bound to that key's tag, with no fuzzy scoring
involved. -/
theorem auto_map_exact_match_precedence (th : ℚ) (cols attrs : List String)
    (col t : String) (hcol : col ∈ cols)
    (hexact : Mapper.dictLookup (Mapper.normalizedAttrs attrs) (Mapper.normalize col) = some t) :
    Mapper.dictLookup (Mapper.auto_map th cols attrs) col = some t := by
  rw [Mapper.auto_map_lookup th cols attrs col hcol]
  simp [Mapper.colBinding, hexact]

/-- Witness for `auto_map_exact_match_precedence`. -/
theorem auto_map_exact_match_precedence_witness :
    Mapper.dictLookup (Mapper.auto_map 70 ["Address"] ["ADDRESS"]) "Address" =
      some "ADDRESS" :=
  auto_map_exact_match_precedence 70 ["Address"] ["ADDRESS"] "Address" "ADDRESS"
    (by decide) (by decide)

/-- Claim C5:  Threshold boundary for a column with no exact normalized match:
a best fuzzy score equal to the threshold binds the column to the matched
tag, a best score strictly below leaves the column unmapped. -/
theorem auto_map_threshold_boundary (th : ℚ) (cols attrs : List String)
    (col m : String) (s : ℚ) (hcol : col ∈ cols)
    (hexact : Mapper.dictLookup (Mapper.normalizedAttrs attrs) (Mapper.normalize col) = none)
    (hbest : Mapper.extractOne (Mapper.normalize col)
      ((Mapper.normalizedAttrs attrs).map Prod.fst) = some (m, s)) :
    (s = th → ∃ t, Mapper.dictLookup (Mapper.normalizedAttrs attrs) m = some t ∧
      Mapper.dictLookup (Mapper.auto_map th cols attrs) col = some t) ∧
    (s < th → Mapper.dictLookup (Mapper.auto_map th cols attrs) col = none) := by
  have hl := Mapper.auto_map_lookup th cols attrs col hcol
  constructor
  · intro hs
    subst hs
    obtain ⟨t, ht⟩ := Mapper.dictLookup_of_mem_keys _ _ (Mapper.extractOne_mem _ _ _ _ hbest)
    refine ⟨t, ht, ?_⟩
    rw [hl]
    simp [Mapper.colBinding, hexact, hbest, ht]
  · intro hs
    rw [hl]
    simp [Mapper.colBinding, hexact, hbest, not_le.mpr hs]

/-- Witness for `auto_map_threshold_boundary`: `fuzzRatio "aaaaaaaxxx"
"aaaaaaayyy" = 70` exactly, so with threshold 70 the column is bound. -/
theorem auto_map_threshold_boundary_witness :
    ∃ t, Mapper.dictLookup (Mapper.normalizedAttrs ["aaaaaaayyy"]) "aaaaaaayyy" = some t ∧
      Mapper.dictLookup (Mapper.auto_map 70 ["aaaaaaaxxx"] ["aaaaaaayyy"]) "aaaaaaaxxx" = some t :=
  (auto_map_threshold_boundary 70 ["aaaaaaaxxx"] ["aaaaaaayyy"] "aaaaaaaxxx"
    "aaaaaaayyy" 70 (by decide) (by decide) (by decide)).1 rfl

/-- Claim C10:  Whenever `auto_map` binds a column to a tag, that tag is the
last attribute of the input sequence sharing its normalized form: duplicate
normalized forms resolve to the last occurrence. -/
theorem auto_map_binds_last_duplicate (th : ℚ) (cols attrs : List String)
    (col t : String) (hcol : col ∈ cols)
    (hbind : Mapper.dictLookup (Mapper.auto_map th cols attrs) col = some t) :
    (attrs.filter (fun a => Mapper.normalize a = Mapper.normalize t)).getLast? = some t := by
  rw [Mapper.auto_map_lookup th cols attrs col hcol] at hbind
  simp only [Mapper.colBinding] at hbind
  split at hbind
  next x h1 =>
    have hx : x = t := Option.some.inj hbind
    rw [hx] at h1
    rcases Mapper.normalizedAttrs_lookup_lastWins attrs (Mapper.normalize col) t h1 with ⟨hn, hf⟩
    rw [← hn] at hf
    exact hf
  next h1 =>
    split at hbind
    next mn sc h2 =>
      split at hbind
      · rcases Mapper.normalizedAttrs_lookup_lastWins attrs mn t hbind with ⟨hn, hf⟩
        rw [← hn] at hf
        exact hf
      · exact Option.noConfusion hbind
    next h2 => exact Option.noConfusion hbind

/-- Witness for `auto_map_binds_last_duplicate`: "No" and "Num" both
normalize to "number"; the column "NO" is bound to the later tag "Num". -/
theorem auto_map_binds_last_duplicate_witness :
    (["No", "Num"].filter
      (fun a => Mapper.normalize a = Mapper.normalize "Num")).getLast? = some "Num" :=
  auto_map_binds_last_duplicate 70 ["NO"] ["No", "Num"] "NO" "Num"
    (by decide) (by decide)

/-- Counterexample to claim C4 as stated: normalizing the column `"Description"`
and the tag `"DESC"` does *not* produce equal strings — the synonym key
"desc" occurs inside the tag's own replacement, so the column normalizes to
"descriptionription" while the tag normalizes to "description". -/
theorem normalize_description_ne_normalize_desc :
    Mapper.normalize "Description" ≠ Mapper.normalize "DESC" := by decide

/-- Claim C4, amended:  `autoMap` with threshold 70 does yield
`{Description → DESC}`, but through the fuzzy step, not through normalized
equality: the tag normalizes to "description", the column to
"descriptionription", and their similarity `2200/29 ≈ 75.9` reaches the
threshold. -/
theorem auto_map_description_desc_via_fuzzy :
    Mapper.auto_map 70 ["Description"] ["DESC"] = [("Description", "DESC")] ∧
    Mapper.normalize "Description" = "descriptionription" ∧
    Mapper.normalize "DESC" = "description" ∧
    Mapper.fuzzRatio "descriptionription" "description" = 2200 / 29 ∧
    (70 : ℚ) ≤ 2200 / 29 :=
  ⟨by decide, by decide, by decide, by decide, by decide⟩

namespace Mapper

theorem replaceGo_mem (pat rep : List Char) :
    ∀ (l : List Char) (skip : Nat) (c : Char),
      c ∈ replaceGo pat rep l skip → c ∈ rep ∨ c ∈ l := by
  intro l
  induction l with
  | nil => intro skip c hc; simp [replaceGo] at hc
  | cons a as ih =>
    intro skip c hc
    cases skip with
    | succ n =>
      rw [replaceGo] at hc
      rcases ih n c hc with h | h
      · exact Or.inl h
      · exact Or.inr (List.mem_cons_of_mem a h)
    | zero =>
      rw [replaceGo] at hc
      split at hc
      · rcases List.mem_append.mp hc with h | h
        · exact Or.inl h
        · rcases ih _ c h with h' | h'
          · exact Or.inl h'
          · exact Or.inr (List.mem_cons_of_mem a h')
      · rcases List.mem_cons.mp hc with he | h
        · exact Or.inr (by rw [he]; exact List.mem_cons_self _ _)
        · rcases ih 0 c h with h' | h'
          · exact Or.inl h'
          · exact Or.inr (List.mem_cons_of_mem a h')

theorem replaceL_mem (pat rep l : List Char) (c : Char) (hc : c ∈ replaceL pat rep l) :
    c ∈ rep ∨ c ∈ l :=
  replaceGo_mem pat rep l 0 c hc

theorem synFold_chars (p : Char → Bool) (syns : List (String × String)) :
    ∀ acc : List Char, (∀ kv ∈ syns, ∀ c ∈ kv.2.toList, p c = true) →
      (∀ c ∈ acc, p c = true) → ∀ c ∈ syns.foldl applySyn acc, p c = true := by
  induction syns with
  | nil => intro acc _ hacc; simpa using hacc
  | cons kv syns ih =>
    intro acc hsyn hacc
    rw [List.foldl_cons]
    refine ih _ (fun kv' h' => hsyn kv' (List.mem_cons_of_mem kv h')) ?_
    intro c hc
    rw [applySyn] at hc
    split at hc
    · rcases replaceL_mem _ _ _ _ hc with h | h
      · exact hsyn kv (List.mem_cons_self kv syns) c h
      · exact hacc c h
    · exact hacc c hc

/-- Every character a normalized name can contain is a lower-case ASCII
letter or digit (the strip stage only keeps such characters and every
synonym replacement consists of them). -/
theorem normalizeL_chars (l : List Char) : ∀ c ∈ normalizeL l, isAlnumLower c = true := by
  intro c hc
  rw [normalizeL] at hc
  refine synFold_chars isAlnumLower SYNONYMS _ (by decide) ?_ c hc
  intro c' hc'
  exact (List.mem_filter.mp hc').2

theorem toLower_eq_self_of_isAlnumLower (c : Char) (h : isAlnumLower c = true) :
    c.toLower = c := by
  simp only [isAlnumLower, Bool.or_eq_true, Bool.and_eq_true, decide_eq_true_eq] at h
  have hn : ¬(c.toNat ≥ 65 ∧ c.toNat ≤ 90) := by
    rcases h with ⟨h1, _⟩ | ⟨_, h2⟩
    · have h97 : 97 ≤ c.toNat := Char.le_def.mp h1
      omega
    · have h57 : c.toNat ≤ 57 := Char.le_def.mp h2
      omega
  simp [Char.toLower, hn]

/-- Lower-casing and stripping are the identity on a string that already
consists of lower-case letters and digits. -/
theorem stage1_id (l : List Char) (hl : ∀ c ∈ l, isAlnumLower c = true) :
    (l.map Char.toLower).filter isAlnumLower = l := by
  have hmap : l.map Char.toLower = l := by
    conv_rhs => rw [← List.map_id l]
    exact List.map_congr_left (fun a ha => toLower_eq_self_of_isAlnumLower a (hl a ha))
  rw [hmap, List.filter_eq_self.mpr hl]

theorem synFold_id (syns : List (String × String)) (acc : List Char)
    (h : ∀ kv ∈ syns, pyIn kv.1.toList acc = false) :
    syns.foldl applySyn acc = acc := by
  induction syns with
  | nil => rfl
  | cons kv syns ih =>
    rw [List.foldl_cons, applySyn, h kv (List.mem_cons_self kv syns)]
    simp only [Bool.false_eq_true, if_false]
    exact ih (fun kv' h' => h kv' (List.mem_cons_of_mem kv h'))

end Mapper

/-- Counterexample to claim C3 as stated: normalization is *not* idempotent for
every string.  `normalize "desc" = "description"`, but re-normalizing fires
the synonym key "desc" inside "description" again, giving
"descriptionription". -/
theorem normalize_not_idempotent :
    Mapper.normalize (Mapper.normalize "desc") ≠ Mapper.normalize "desc" := by decide

/-- Claim C3, amended:  Normalization is idempotent exactly on the strings
whose normalized form contains no synonym key as a substring: for such `s`,
`normalize (normalize s) = normalize s`.  (Lower-casing and stripping are
always the identity on a normalized name; only a re-fired synonym
substitution can change it.) -/
theorem normalize_idempotent_of_no_key (s : String)
    (h : ∀ kv ∈ Mapper.SYNONYMS, Mapper.pyIn kv.1.toList (Mapper.normalize s).toList = false) :
    Mapper.normalize (Mapper.normalize s) = Mapper.normalize s := by
  have key : ∀ l : List Char, (∀ c ∈ l, Mapper.isAlnumLower c = true) →
      (∀ kv ∈ Mapper.SYNONYMS, Mapper.pyIn kv.1.toList l = false) →
      Mapper.normalizeL l = l := by
    intro l h1 h2
    rw [Mapper.normalizeL, Mapper.stage1_id l h1]
    exact Mapper.synFold_id _ _ h2
  exact congrArg String.mk (key _ (Mapper.normalizeL_chars s.toList) h)

/-- Witness for `normalize_idempotent_of_no_key`: no synonym key occurs in
`normalize "xyz" = "xyz"`. -/
theorem normalize_idempotent_of_no_key_witness :
    Mapper.normalize (Mapper.normalize "xyz") = Mapper.normalize "xyz" :=
  normalize_idempotent_of_no_key "xyz" (by decide)

namespace Filler

theorem findAttrib_setAttribTextL_self (tag t : String) (l : List Attrib) :
    findAttrib tag (setAttribTextL tag t l) =
      (findAttrib tag l).map (fun a => { a with text := t }) := by
  induction l with
  | nil => rfl
  | cons a as ih =>
    by_cases h : a.tag = tag
    · simp [setAttribTextL, findAttrib, h]
    · simp [setAttribTextL, findAttrib, h, ih]

theorem findAttrib_setAttribTextL_ne (tag tag' t : String) (h : tag ≠ tag')
    (l : List Attrib) :
    findAttrib tag (setAttribTextL tag' t l) = findAttrib tag l := by
  induction l with
  | nil => rfl
  | cons a as ih =>
    by_cases ha : a.tag = tag'
    · have hat : ¬ a.tag = tag := fun hh => h ((hh ▸ ha : tag = tag'))
      simp [setAttribTextL, findAttrib, ha, hat, h, Ne.symm h]
    · by_cases hb : a.tag = tag
      · simp [setAttribTextL, findAttrib, ha, hb, h, Ne.symm h]
      · simp [setAttribTextL, findAttrib, ha, hb, ih, h, Ne.symm h]

/-- Re-running one mapping pair right after it ran is a no-op: either the
pair was skipped (and is skipped again), or it wrote `new_text`, which now
compares trim-equal to itself. -/
theorem fillPair1_idem (row : Row) (p : String × String) (i : Insert) :
    fillPair1 row p (fillPair1 row p i).1 = ((fillPair1 row p i).1, []) := by
  rcases hv : pyGet row p.1 with _ | v
  · simp [fillPair1, hv]
  · cases hna : isNA v with
    | true => simp [fillPair1, hv, hna]
    | false =>
      rcases hf : findAttrib p.2 i.attribs with _ | a
      · simp [fillPair1, hv, hna, hf]
      · by_cases hne : Mapper.pyStrip a.text = Mapper.pyStrip (pyStr v)
        · simp [fillPair1, hv, hna, hf, hne]
        · have h1 : (fillPair1 row p i).1 =
              { i with attribs := setAttribTextL p.2 (pyStr v) i.attribs } := by
            simp [fillPair1, hv, hna, hf, hne]
          rw [h1]
          simp [fillPair1, hv, hna, findAttrib_setAttribTextL_self, hf]

/-- A pair that is currently a no-op stays a no-op after any pair with a
different tag runs. -/
theorem fillPair1_noop_preserved (row : Row) (p q : String × String) (i : Insert)
    (hpq : q.2 ≠ p.2) (hnoop : fillPair1 row p i = (i, [])) :
    fillPair1 row p (fillPair1 row q i).1 = ((fillPair1 row q i).1, []) := by
  rcases hv : pyGet row q.1 with _ | w
  · have hq1 : (fillPair1 row q i).1 = i := by simp [fillPair1, hv]
    rw [hq1]; exact hnoop
  · cases hna : isNA w with
    | true =>
      have hq1 : (fillPair1 row q i).1 = i := by simp [fillPair1, hv, hna]
      rw [hq1]; exact hnoop
    | false =>
      rcases hf : findAttrib q.2 i.attribs with _ | b
      · have hq1 : (fillPair1 row q i).1 = i := by simp [fillPair1, hv, hna, hf]
        rw [hq1]; exact hnoop
      · by_cases hne : Mapper.pyStrip b.text = Mapper.pyStrip (pyStr w)
        · have hq1 : (fillPair1 row q i).1 = i := by simp [fillPair1, hv, hna, hf, hne]
          rw [hq1]; exact hnoop
        · have hq1 : (fillPair1 row q i).1 =
              { i with attribs := setAttribTextL q.2 (pyStr w) i.attribs } := by
            simp [fillPair1, hv, hna, hf, hne]
          rw [hq1]
          -- analyze why p was a no-op on i
          rcases hv' : pyGet row p.1 with _ | v
          · simp [fillPair1, hv']
          · cases hna' : isNA v with
            | true => simp [fillPair1, hv', hna']
            | false =>
              have hfind : findAttrib p.2 (setAttribTextL q.2 (pyStr w) i.attribs) =
                  findAttrib p.2 i.attribs :=
                findAttrib_setAttribTextL_ne p.2 q.2 (pyStr w) (fun he => hpq he.symm) _
              rcases hf' : findAttrib p.2 i.attribs with _ | a
              · simp [fillPair1, hv', hna', hfind, hf']
              · by_cases hne' : Mapper.pyStrip a.text = Mapper.pyStrip (pyStr v)
                · simp [fillPair1, hv', hna', hfind, hf', hne']
                · exfalso
                  have h2 : (fillPair1 row p i).2 ≠ [] := by
                    simp [fillPair1, hv', hna', hf', hne']
                  rw [hnoop] at h2
                  exact h2 rfl

/-- A pair that is a no-op stays one across a whole run of pairs whose tags
all differ from its own. -/
theorem fillPairs_noop_preserved (row : Row) (ps : List (String × String))
    (p : String × String) (i : Insert)
    (hps : ∀ q ∈ ps, q.2 ≠ p.2) (hnoop : fillPair1 row p i = (i, [])) :
    fillPair1 row p (fillPairs row ps i).1 = ((fillPairs row ps i).1, []) := by
  induction ps generalizing i with
  | nil => simpa [fillPairs] using hnoop
  | cons q ps ih =>
    simp only [fillPairs]
    exact ih (fillPair1 row q i).1
      (fun q' hq' => hps q' (List.mem_cons_of_mem q hq'))
      (fillPair1_noop_preserved row p q i (hps q (List.mem_cons_self q ps)) hnoop)

/-- After a full pass with pairwise-distinct tags, every pair of the mapping
is a no-op on the resulting INSERT. -/
theorem fillPairs_all_noop (row : Row) (ps : List (String × String)) (i : Insert)
    (hnd : (ps.map Prod.snd).Nodup) :
    ∀ p ∈ ps, fillPair1 row p (fillPairs row ps i).1 = ((fillPairs row ps i).1, []) := by
  induction ps generalizing i with
  | nil => intro p hp; cases hp
  | cons q ps ih =>
    intro p hp
    rw [List.map_cons, List.nodup_cons] at hnd
    obtain ⟨hq, hnd'⟩ := hnd
    rcases List.mem_cons.mp hp with he | hp'
    · subst he
      simp only [fillPairs]
      refine fillPairs_noop_preserved row ps p _ ?_ (fillPair1_idem row p i)
      intro q' hq'
      exact fun hee => hq (hee ▸ List.mem_map_of_mem Prod.snd hq')
    · simp only [fillPairs]
      exact ih _ hnd' p hp'

theorem fillPairs_of_all_noop (row : Row) (ps : List (String × String)) (i : Insert)
    (h : ∀ p ∈ ps, fillPair1 row p i = (i, [])) :
    fillPairs row ps i = (i, []) := by
  induction ps with
  | nil => rfl
  | cons q ps ih =>
    simp [fillPairs, h q (List.mem_cons_self q ps),
      ih (fun p hp => h p (List.mem_cons_of_mem q hp))]

theorem fillPairs_idem (row : Row) (ps : List (String × String)) (i : Insert)
    (hnd : (ps.map Prod.snd).Nodup) :
    fillPairs row ps (fillPairs row ps i).1 = ((fillPairs row ps i).1, []) :=
  fillPairs_of_all_noop row ps _ (fillPairs_all_noop row ps i hnd)

end Filler

namespace Filler

/-- The per-attribute frame relation established by running the pairs `S`:
all geometry fields are untouched, and the text either survives or was
written from a usable row value of one of the pairs of `S` aimed at this
attribute's tag. -/
def AttrFrame (S : List (String × String)) (row : Row) (a a' : Attrib) : Prop :=
  a'.tag = a.tag ∧ a'.handle = a.handle ∧ a'.insert = a.insert ∧
  a'.height = a.height ∧ a'.halign = a.halign ∧ a'.valign = a.valign ∧
  (a'.text = a.text ∨ ∃ col v, (col, a.tag) ∈ S ∧ pyGet row col = some v ∧
    isNA v = false ∧ a'.text = pyStr v)

theorem attrFrame_refl (S : List (String × String)) (row : Row) (a : Attrib) :
    AttrFrame S row a a :=
  ⟨rfl, rfl, rfl, rfl, rfl, rfl, Or.inl rfl⟩

theorem AttrFrame.comp {S1 S2 S : List (String × String)} {row : Row} {a b c : Attrib}
    (h1 : AttrFrame S1 row a b) (h2 : AttrFrame S2 row b c)
    (hs1 : ∀ p ∈ S1, p ∈ S) (hs2 : ∀ p ∈ S2, p ∈ S) :
    AttrFrame S row a c := by
  obtain ⟨t1, h1a, h1b, h1c, h1d, h1e, htext1⟩ := h1
  obtain ⟨t2, h2a, h2b, h2c, h2d, h2e, htext2⟩ := h2
  refine ⟨t2.trans t1, h2a.trans h1a, h2b.trans h1b, h2c.trans h1c,
    h2d.trans h1d, h2e.trans h1e, ?_⟩
  rcases htext2 with he2 | ⟨col, v, hmem, hv, hna, hw⟩
  · rcases htext1 with he1 | ⟨col, v, hmem, hv, hna, hw⟩
    · exact Or.inl (he2.trans he1)
    · exact Or.inr ⟨col, v, hs1 _ hmem, hv, hna, he2.trans hw⟩
  · rw [t1] at hmem
    exact Or.inr ⟨col, v, hs2 _ hmem, hv, hna, hw⟩

theorem forall2_attrFrame_comp {S1 S2 S : List (String × String)} {row : Row}
    (hs1 : ∀ p ∈ S1, p ∈ S) (hs2 : ∀ p ∈ S2, p ∈ S) :
    ∀ {l1 l2 l3 : List Attrib}, List.Forall₂ (AttrFrame S1 row) l1 l2 →
      List.Forall₂ (AttrFrame S2 row) l2 l3 →
      List.Forall₂ (AttrFrame S row) l1 l3 := by
  intro l1 l2 l3 h12
  induction h12 generalizing l3 with
  | nil =>
    intro h23
    cases h23
    exact List.Forall₂.nil
  | cons hab h12' ih =>
    intro h23
    cases h23 with
    | cons hbc h23' =>
      exact List.Forall₂.cons (hab.comp hbc hs1 hs2) (ih h23')

theorem setAttribTextL_attrFrame (row : Row) (p : String × String) (v : PyValue)
    (hv : pyGet row p.1 = some v) (hna : isNA v = false) :
    ∀ l : List Attrib, List.Forall₂ (AttrFrame [p] row) l (setAttribTextL p.2 (pyStr v) l) := by
  intro l
  induction l with
  | nil => exact List.Forall₂.nil
  | cons a as ih =>
    rw [setAttribTextL]
    split
    next h =>
      refine List.Forall₂.cons ⟨rfl, rfl, rfl, rfl, rfl, rfl, Or.inr ⟨p.1, v, ?_, hv, hna, rfl⟩⟩
        (List.forall₂_same.mpr (fun x _ => attrFrame_refl [p] row x))
      rw [h]
      exact List.mem_singleton.mpr rfl
    next h =>
      exact List.Forall₂.cons (attrFrame_refl [p] row a) ih

theorem fillPair1_attrFrame (row : Row) (p : String × String) (i : Insert) :
    (fillPair1 row p i).1.name = i.name ∧
    List.Forall₂ (AttrFrame [p] row) i.attribs (fillPair1 row p i).1.attribs := by
  have hrefl : List.Forall₂ (AttrFrame [p] row) i.attribs i.attribs :=
    List.forall₂_same.mpr (fun x _ => attrFrame_refl [p] row x)
  rcases hv : pyGet row p.1 with _ | v
  · exact ⟨by simp [fillPair1, hv], by simpa [fillPair1, hv] using hrefl⟩
  · cases hna : isNA v with
    | true => exact ⟨by simp [fillPair1, hv, hna], by simpa [fillPair1, hv, hna] using hrefl⟩
    | false =>
      rcases hf : findAttrib p.2 i.attribs with _ | a
      · exact ⟨by simp [fillPair1, hv, hna, hf], by simpa [fillPair1, hv, hna, hf] using hrefl⟩
      · by_cases hne : Mapper.pyStrip a.text = Mapper.pyStrip (pyStr v)
        · exact ⟨by simp [fillPair1, hv, hna, hf, hne],
            by simpa [fillPair1, hv, hna, hf, hne] using hrefl⟩
        · have h1 : (fillPair1 row p i).1 =
              { i with attribs := setAttribTextL p.2 (pyStr v) i.attribs } := by
            simp [fillPair1, hv, hna, hf, hne]
          rw [h1]
          exact ⟨rfl, setAttribTextL_attrFrame row p v hv hna i.attribs⟩

theorem fillPairs_attrFrame (row : Row) (ps : List (String × String)) (i : Insert) :
    (fillPairs row ps i).1.name = i.name ∧
    List.Forall₂ (AttrFrame ps row) i.attribs (fillPairs row ps i).1.attribs := by
  induction ps generalizing i with
  | nil =>
    exact ⟨rfl, List.forall₂_same.mpr (fun x _ => attrFrame_refl [] row x)⟩
  | cons p ps ih =>
    obtain ⟨hn1, hf1⟩ := fillPair1_attrFrame row p i
    obtain ⟨hn2, hf2⟩ := ih (fillPair1 row p i).1
    refine ⟨?_, ?_⟩
    · simp only [fillPairs]
      exact hn2.trans hn1
    · simp only [fillPairs]
      exact forall2_attrFrame_comp
        (fun q hq => by rw [List.mem_singleton.mp hq]; exact List.mem_cons_self p ps)
        (fun q hq => List.mem_cons_of_mem p hq) hf1 hf2

end Filler

/-- Claim C9:  `fill_document` preserves the whole structure of the document
except field text: pairwise, every INSERT keeps its name and every attribute
keeps its tag, handle, insertion point, height and alignments; an attribute
whose tag is not a value of the mapping keeps its text, and any text that
did change was written as the stringified, usable row value of a mapping
pair aimed at that attribute's tag. -/
theorem fill_document_frame (doc : List Filler.Insert)
    (mapping : List (String × String)) (row : Filler.Row) :
    List.Forall₂ (fun i i' =>
      i'.name = i.name ∧
      List.Forall₂ (fun a a' =>
        a'.tag = a.tag ∧ a'.handle = a.handle ∧ a'.insert = a.insert ∧
        a'.height = a.height ∧ a'.halign = a.halign ∧ a'.valign = a.valign ∧
        (a.tag ∉ mapping.map Prod.snd → a'.text = a.text) ∧
        (a'.text ≠ a.text → ∃ col v, (col, a.tag) ∈ mapping ∧
          Filler.pyGet row col = some v ∧ Filler.isNA v = false ∧
          a'.text = Filler.pyStr v))
        i.attribs i'.attribs)
      doc (Filler.fill_document doc mapping row).1 := by
  induction doc with
  | nil => exact List.Forall₂.nil
  | cons ins rest ih =>
    simp only [Filler.fill_document]
    refine List.Forall₂.cons ?_ ih
    obtain ⟨hname, hattr⟩ := Filler.fillPairs_attrFrame row mapping ins
    refine ⟨hname, hattr.imp ?_⟩
    intro a a' hr
    obtain ⟨h1, h2, h3, h4, h5, h6, htext⟩ := hr
    refine ⟨h1, h2, h3, h4, h5, h6, ?_, ?_⟩
    · intro hnot
      rcases htext with he | ⟨col, v, hmem, -, -, -⟩
      · exact he
      · exact absurd (List.mem_map_of_mem Prod.snd hmem) hnot
    · intro hneq
      rcases htext with he | hex
      · exact absurd he hneq
      · exact hex

/-- Counterexample to claim C7 as stated: with two mapping entries sharing the
tag "TAG" but carrying different values, a second run of `fill_document` on
the already-filled document still emits records (each run rewrites the field
from the last pair's value back to the first pair's and back again). -/
theorem fill_document_not_idempotent_shared_tag :
    (Filler.fill_document
      (Filler.fill_document [⟨"B", [⟨"TAG", "", "h1", (0, 0), 1, 0, 0⟩]⟩]
        [("c1", "TAG"), ("c2", "TAG")] [("c1", .pstr "a"), ("c2", .pstr "b")]).1
      [("c1", "TAG"), ("c2", "TAG")] [("c1", .pstr "a"), ("c2", .pstr "b")]).2 ≠ [] := by
  decide

/-- Claim C7, amended:  `fill` is idempotent per field *provided no two
mapping entries share the same attribute tag*: a second run of
`fill_document` with the same mapping and row emits zero records and leaves
the document unchanged, because every field now compares trim-equal to the
value written for its unique pair. -/
theorem fill_document_idempotent_of_nodup_tags (doc : List Filler.Insert)
    (mapping : List (String × String)) (row : Filler.Row)
    (hnd : (mapping.map Prod.snd).Nodup) :
    Filler.fill_document (Filler.fill_document doc mapping row).1 mapping row =
      ((Filler.fill_document doc mapping row).1, []) := by
  induction doc with
  | nil => rfl
  | cons ins rest ih =>
    simp only [Filler.fill_document]
    rw [Filler.fillPairs_idem row mapping ins hnd, ih]
    simp

/-- Witness for `fill_document_idempotent_of_nodup_tags`. -/
theorem fill_document_idempotent_of_nodup_tags_witness :
    Filler.fill_document
        (Filler.fill_document [⟨"B", [⟨"TAG", "", "h1", (0, 0), 1, 0, 0⟩]⟩]
          [("c1", "TAG")] [("c1", Filler.PyValue.pstr "a")]).1
        [("c1", "TAG")] [("c1", Filler.PyValue.pstr "a")] =
      ((Filler.fill_document [⟨"B", [⟨"TAG", "", "h1", (0, 0), 1, 0, 0⟩]⟩]
          [("c1", "TAG")] [("c1", Filler.PyValue.pstr "a")]).1, []) :=
  fill_document_idempotent_of_nodup_tags _ _ _ (by decide)

/-- Witness for `fillPair1_skips_missing_value`: a row that stores `NaN`
under the mapped column. -/
theorem fillPair1_skips_missing_value_witness :
    Filler.fillPair1 [("A", .pnan)] ("A", "TAG")
        ⟨"B", [⟨"TAG", "x", "1", (0, 0), 1, 0, 0⟩]⟩ =
      (⟨"B", [⟨"TAG", "x", "1", (0, 0), 1, 0, 0⟩]⟩, []) :=
  fillPair1_skips_missing_value _ _ _ (by right; right; decide)

namespace Filler.Batch

theorem processRowFixed_row_index (io : IOManager) (dwg_path out_dir : String)
    (mapping : List (String × String)) (index : Nat) (row : Row) :
    (processRowFixed io dwg_path out_dir mapping index row).row_index = index + 1 := by
  rw [processRowFixed]
  cases io.load_dwg dwg_path with
  | error e => rfl
  | ok doc =>
    simp only []
    split <;> rfl

theorem processRowFixed_status_cases (io : IOManager) (dwg_path out_dir : String)
    (mapping : List (String × String)) (index : Nat) (row : Row) :
    ((processRowFixed io dwg_path out_dir mapping index row).status = "SUCCESS" ∨
      (processRowFixed io dwg_path out_dir mapping index row).status = "FAILED") ∧
    ((processRowFixed io dwg_path out_dir mapping index row).status = "FAILED" →
      (processRowFixed io dwg_path out_dir mapping index row).output_path = none) := by
  rw [processRowFixed]
  cases io.load_dwg dwg_path with
  | error e => exact ⟨Or.inr rfl, fun _ => rfl⟩
  | ok doc =>
    simp only []
    split
    · exact ⟨Or.inr rfl, fun _ => rfl⟩
    · refine ⟨Or.inl rfl, fun h => ?_⟩
      simp at h

theorem batchResultsFixed_length (io : IOManager) (dwg_path out_dir : String)
    (mapping : List (String × String)) :
    ∀ (rows : List Row) (index : Nat),
      (batchResultsFixed io dwg_path out_dir mapping index rows).length = rows.length := by
  intro rows
  induction rows with
  | nil => intro index; rfl
  | cons r rs ih =>
    intro index
    simp only [batchResultsFixed, List.length_cons, ih]

theorem batchResultsFixed_row_index (io : IOManager) (dwg_path out_dir : String)
    (mapping : List (String × String)) :
    ∀ (rows : List Row) (index k : Nat)
      (h : k < (batchResultsFixed io dwg_path out_dir mapping index rows).length),
      ((batchResultsFixed io dwg_path out_dir mapping index rows).get ⟨k, h⟩).row_index =
        index + k + 1 := by
  intro rows
  induction rows with
  | nil => intro index k h; cases h
  | cons r rs ih =>
    intro index k h
    cases k with
    | zero => exact processRowFixed_row_index io dwg_path out_dir mapping index r
    | succ k =>
      have := ih (index + 1) k (by simpa [batchResultsFixed] using h)
      simpa [batchResultsFixed, Nat.add_assoc, Nat.add_comm, Nat.add_left_comm] using this

theorem batchResultsFixed_mem_status (io : IOManager) (dwg_path out_dir : String)
    (mapping : List (String × String)) :
    ∀ (rows : List Row) (index : Nat) (r : RowResult),
      r ∈ batchResultsFixed io dwg_path out_dir mapping index rows →
      (r.status = "SUCCESS" ∨ r.status = "FAILED") ∧
      (r.status = "FAILED" → r.output_path = none) := by
  intro rows
  induction rows with
  | nil => intro index r h; cases h
  | cons row rs ih =>
    intro index r h
    rcases List.mem_cons.mp h with he | h'
    · rw [he]
      exact processRowFixed_status_cases io dwg_path out_dir mapping index row
    · exact ih (index + 1) r h'

theorem filter_success_failed_length (results : List RowResult)
    (h : ∀ r ∈ results, r.status = "SUCCESS" ∨ r.status = "FAILED") :
    (results.filter (fun r => r.status = "SUCCESS")).length +
      (results.filter (fun r => r.status = "FAILED")).length = results.length := by
  induction results with
  | nil => rfl
  | cons r rs ih =>
    have ihs := ih (fun x hx => h x (List.mem_cons_of_mem r hx))
    rcases h r (List.mem_cons_self r rs) with hs | hs <;>
      simp [List.filter_cons, hs] <;> omega

end Filler.Batch

/-- The behavior claim C2 describes, proved of the repaired-logger model
`batch_fillFixed`: for every input table and every behavior of the IO
collaborator (any pattern of load/save failures), the report contains
exactly one row-result per input row in ordinal order `1..N`, the success
and failure counts add up to `N`, a failed row-result never carries an
output path, and a failing row never prevents later rows from being
processed.  This supports reading claim C2 as the code's intent; the code
as written crashes first (see the claim C2 theorem below). -/
theorem batch_fillFixed_report_shape (io : Filler.Batch.IOManager) (dwg_path : String)
    (rows : List Filler.Row) (mapping : List (String × String)) (out_dir : String)
    (k : Nat)
    (hk : k < (Filler.Batch.batch_fillFixed io dwg_path rows mapping out_dir).results.length)
    (r : Filler.Batch.RowResult)
    (hr : r ∈ (Filler.Batch.batch_fillFixed io dwg_path rows mapping out_dir).results)
    (hf : r.status = "FAILED") :
    (Filler.Batch.batch_fillFixed io dwg_path rows mapping out_dir).results.length = rows.length ∧
    (Filler.Batch.batch_fillFixed io dwg_path rows mapping out_dir).success_count +
      (Filler.Batch.batch_fillFixed io dwg_path rows mapping out_dir).failed_count = rows.length ∧
    ((Filler.Batch.batch_fillFixed io dwg_path rows mapping out_dir).results.get ⟨k, hk⟩).row_index
      = k + 1 ∧
    r.output_path = none := by
  have hlen := Filler.Batch.batchResultsFixed_length io dwg_path out_dir mapping rows 0
  refine ⟨hlen, ?_, ?_, ?_⟩
  · have hcount := Filler.Batch.filter_success_failed_length
      (Filler.Batch.batchResultsFixed io dwg_path out_dir mapping 0 rows)
      (fun x hx => (Filler.Batch.batchResultsFixed_mem_status io dwg_path out_dir mapping
        rows 0 x hx).1)
    exact hcount.trans hlen
  · have := Filler.Batch.batchResultsFixed_row_index io dwg_path out_dir mapping rows 0 k hk
    simpa using this
  · exact (Filler.Batch.batchResultsFixed_mem_status io dwg_path out_dir mapping rows 0 r hr).2 hf

/-- An IO collaborator whose every load fails: drives the witness below. -/
def ioAlwaysFails : Filler.Batch.IOManager :=
  ⟨fun _ => Except.error "not found", fun _ _ => Except.ok ()⟩

/-- Instance of `batch_fillFixed_report_shape`: a one-row batch whose load
fails still reports one ordinal row-result, counts 0+1, and no output path. -/
theorem batch_fillFixed_report_shape_witness :
    (Filler.Batch.batch_fillFixed ioAlwaysFails "t.dwg" [[]] [] "out").results.length = 1 ∧
    (Filler.Batch.batch_fillFixed ioAlwaysFails "t.dwg" [[]] [] "out").success_count +
      (Filler.Batch.batch_fillFixed ioAlwaysFails "t.dwg" [[]] [] "out").failed_count = 1 ∧
    ((Filler.Batch.batch_fillFixed ioAlwaysFails "t.dwg" [[]] [] "out").results.get
      ⟨0, by decide⟩).row_index = 0 + 1 ∧
    Filler.Batch.RowResult.output_path ⟨1, "FAILED", none, some "not found", 0⟩ = none :=
  batch_fillFixed_report_shape ioAlwaysFails "t.dwg" [[]] [] "out" 0 (by decide)
    ⟨1, "FAILED", none, some "not found", 0⟩ (by decide) (by decide)

namespace Filler.Batch

/-- Every per-row body of the real `batch_fill` raises: line 139's
`logger.info(..., context=...)` aborts the `try` body before the template
is even loaded, and line 155's `logger.error(..., context=...)` raises the
same `TypeError` inside the `except` handler, which therefore escapes. -/
theorem processRow_raises (io : IOManager) (dwg_path out_dir : String)
    (mapping : List (String × String)) (index : Nat) (row : Row) :
    processRow io dwg_path out_dir mapping index row =
      Except.error typeErrorContext := rfl

/-- On an empty table the row loop never runs and the closing
`logger.info` (no `context=`) is harmless, so a report is returned. -/
theorem batch_fill_nil (io : IOManager) (dwg_path out_dir : String)
    (mapping : List (String × String)) :
    batch_fill io dwg_path [] mapping out_dir =
      Except.ok ⟨0, 0, 0, []⟩ := rfl

end Filler.Batch

/-- Claim C2 is false of the code as written (the spec records the intent,
the code has a slip): for every IO behavior and every non-empty table,
`batch_fill` never returns a report — it raises `TypeError` while handling
row 1, because `src/logger.py` line 51 exports the raw stdlib logger and
both `logger.info(..., context=...)` in the `try` body (filler.py line 139)
and `logger.error(..., context=...)` in the `except` handler (line 155)
pass the unsupported `context` keyword, the handler's own exception
escaping the loop.  No row-results are reported and no later row is
processed, for any pattern of load/fill/save outcomes. -/
theorem batch_fill_raises_typeerror_on_any_row :
    ∀ (io : Filler.Batch.IOManager) (dwg_path : String) (row : Filler.Row)
      (rest : List Filler.Row) (mapping : List (String × String)) (out_dir : String),
      Filler.Batch.batch_fill io dwg_path (row :: rest) mapping out_dir =
        Except.error Filler.Batch.typeErrorContext :=
  fun _ _ _ _ _ _ => rfl

end RatReducible
